import Mathlib

/-!
# Verification of the LoRaWAN EPC tooling

Shallow embedding of the two analytical cores of the repository:

* `EPC_OPT.py` — `EPCAnalyzer.group_and_analyze`: greedy grouping of
  24-hex-character EPC strings by a positional-equality-count threshold,
  followed by per-group compression statistics.
* `Testing.py` — `EPCLoRaWANCalculator`: LoRaWAN airtime arithmetic,
  packet encode/decode, and the transmission planner.

Python machine arithmetic is modelled with `Nat`/`Int` (Python ints are
unbounded); Python float arithmetic in the airtime formulas is modelled
with exact rationals `ℚ`; fallible code (exceptions) returns `Except`.
-/

/-! ## Grouping engine (`EPC_OPT.py`, `EPCAnalyzer`) -/

/-- `self.min_prefix_length = 6` (EPC_OPT.py line 9). -/
def min_prefix_length : Nat := 6

/-- `sum(1 for a, b in zip(base, other) if a == b)` (EPC_OPT.py line 63):
the count of character positions where the two strings agree, over
`zip` (truncating at the shorter string). -/
def commonLen (base other : String) : Nat :=
  (base.data.zip other.data).countP (fun p => p.1 == p.2)

/-- The inner `while i < len(remaining)` loop of `group_and_analyze`
(EPC_OPT.py lines 61-67): scan `remaining` left to right; an element with
`commonLen base · ≥ min_prefix_length` is popped and appended to the group,
otherwise it stays (index advances).  The result is the pair
(elements appended to the group, elements left in the pool), each in
the original scan order. -/
def collectMatches (base : String) : List String → List String × List String
  | [] => ([], [])
  | c :: rest =>
    let r := collectMatches base rest
    if min_prefix_length ≤ commonLen base c then (c :: r.1, r.2) else (r.1, c :: r.2)

theorem collectMatches_snd_length_le (base : String) :
    ∀ l : List String, (collectMatches base l).2.length ≤ l.length := by
  intro l
  induction l with
  | nil => simp [collectMatches]
  | cons c rest ih =>
    simp only [collectMatches]
    split
    · exact Nat.le_succ_of_le ih
    · simpa using Nat.succ_le_succ ih

/-- The outer `while remaining` loop of `group_and_analyze`
(EPC_OPT.py lines 56-68), with an explicit structural fuel so that the
kernel can evaluate it (the fuel is set to the pool length by
`groupEpcs`, which always suffices: each round consumes the base). -/
def groupEpcsAux : Nat → List String → List (List String)
  | 0, _ => []
  | _, [] => []
  | fuel + 1, base :: rest =>
    (base :: (collectMatches base rest).1) ::
      groupEpcsAux fuel (collectMatches base rest).2

/-- The outer `while remaining` loop of `group_and_analyze`
(EPC_OPT.py lines 56-68): pop the first pool element as the base,
collect everything matching it, emit the group, repeat on the rest. -/
def groupEpcs (l : List String) : List (List String) :=
  groupEpcsAux l.length l

theorem groupEpcsAux_fuel_irrel :
    ∀ (fuel : Nat) (l : List String), l.length ≤ fuel →
      groupEpcsAux fuel l = groupEpcsAux l.length l := by
  intro fuel
  induction fuel using Nat.strong_induction_on with
  | _ fuel ih =>
    intro l hl
    rcases l with _ | ⟨b, r⟩
    · cases fuel <;> simp [groupEpcsAux]
    · rcases fuel with _ | n
      · simp at hl
      · simp only [groupEpcsAux, List.length_cons]
        have h2 : (collectMatches b r).2.length ≤ r.length :=
          collectMatches_snd_length_le b r
        have hr : r.length ≤ n := by simpa using hl
        rw [ih n (Nat.lt_succ_self n) _ (le_trans h2 hr),
          ih r.length (Nat.lt_succ_of_le hr) _ h2]

/-- Unfolding equation for `groupEpcs` on a nonempty pool. -/
theorem groupEpcs_cons (base : String) (rest : List String) :
    groupEpcs (base :: rest) =
      (base :: (collectMatches base rest).1) ::
        groupEpcs (collectMatches base rest).2 := by
  simp only [groupEpcs, List.length_cons, groupEpcsAux]
  rw [groupEpcsAux_fuel_irrel _ _ (collectMatches_snd_length_le base rest)]

/-- One output row of `group_and_analyze` (the dict built at
EPC_OPT.py lines 75-84 / 109-119).  Field `PrefixStr` stands for the
Python `'Prefix'` column, `Compression_pct` for `'Compression_%'`. -/
structure GroupAnalysisRow where
  Group_ID : Nat
  PrefixStr : String
  Prefix_Bytes : Int
  Suffix_Bytes : Int
  Suffix_Count : Nat
  Total_Payload_Bytes : Int
  EPCs_SF7_51B : Int
  EPCs_SF12_11B : Int
  Compression_pct : ℚ
deriving DecidableEq, Repr

/-- `len(min(group, key=len))`: the minimum string length in the group
(0 for the empty list, which never occurs). -/
def minGroupLen : List String → Nat
  | [] => 0
  | s :: rest => rest.foldl (fun m t => min m t.length) s.length

/-- One column of `zip(*group)` satisfies `len(set(chars)) == 1`:
all members agree at position `i`. -/
def columnUnanimous (g : List String) (i : Nat) : Bool :=
  match g with
  | [] => true
  | s :: rest => rest.all (fun t => t.data.get? i == s.data.get? i)

/-- `sum(1 for chars in zip(*group) if len(set(chars)) == 1)`
(EPC_OPT.py line 90): `zip(*group)` yields one tuple per position up to
the shortest member, and the sum counts the unanimous columns. -/
def agreeCount (g : List String) : Nat :=
  (List.range (minGroupLen g)).countP (fun i => columnUnanimous g i)

/-- Python `round(x, 1)` on the exact value: round `10*x` to the nearest
integer, ties to even (Python's round-half-to-even), divide by 10. -/
def pythonRound1 (x : ℚ) : ℚ :=
  let t : ℚ := 10 * x
  let fl : Int := ⌊t⌋
  let fr : ℚ := t - fl
  let n : Int :=
    if fr < 1/2 then fl
    else if 1/2 < fr then fl + 1
    else if fl % 2 = 0 then fl else fl + 1
  (n : ℚ) / 10

/-- The per-group analysis (EPC_OPT.py lines 72-119) for the group with
1-based id `gid`.  A singleton group gets the hardcoded row of lines
75-84; a larger group gets the computed statistics of lines 86-119.
Python `//` on ints is floor division, embedded as `Int.fdiv`. -/
def analyzeGroup (gid : Nat) (g : List String) : GroupAnalysisRow :=
  if g.length = 1 then
    { Group_ID := gid
      PrefixStr := ""
      Prefix_Bytes := 0
      Suffix_Bytes := 12
      Suffix_Count := 1
      Total_Payload_Bytes := 14
      EPCs_SF7_51B := 3
      EPCs_SF12_11B := 0
      Compression_pct := 0 }
  else
    let prefix_len : Nat := min (minGroupLen g) (max min_prefix_length (agreeCount g))
    let pfx : String := String.mk ((g.headD "").data.take prefix_len)
    let prefix_bytes : Int := Int.fdiv (prefix_len : Int) 2
    let suffix_bytes : Int := Int.fdiv (24 - (prefix_len : Int)) 2
    let suffix_count : Nat := g.length
    let total_payload : Int := 2 + prefix_bytes + (suffix_count : Int) * suffix_bytes
    let overhead : Int := 2 + prefix_bytes
    let epcs_sf7 : Int := if 0 < suffix_bytes then max 0 (Int.fdiv (51 - overhead) suffix_bytes) else 0
    let epcs_sf12 : Int := if 0 < suffix_bytes then max 0 (Int.fdiv (11 - overhead) suffix_bytes) else 0
    let uncompressed : Int := (suffix_count : Int) * 12
    let compression : ℚ :=
      pythonRound1 (((uncompressed : ℚ) - (total_payload : ℚ)) / (uncompressed : ℚ) * 100)
    { Group_ID := gid
      PrefixStr := pfx
      Prefix_Bytes := prefix_bytes
      Suffix_Bytes := suffix_bytes
      Suffix_Count := suffix_count
      Total_Payload_Bytes := total_payload
      EPCs_SF7_51B := epcs_sf7
      EPCs_SF12_11B := epcs_sf12
      Compression_pct := compression }

/-- `for gid, group in enumerate(groups, 1)` (EPC_OPT.py line 72):
analyze the groups with 1-based ids starting at `gid`. -/
def analyzeGroups : Nat → List (List String) → List GroupAnalysisRow
  | _, [] => []
  | gid, g :: gs => analyzeGroup gid g :: analyzeGroups (gid + 1) gs

/-- `EPCAnalyzer.group_and_analyze` (EPC_OPT.py lines 50-123), as the
list of result rows (the returned DataFrame's records). -/
def group_and_analyze (epcs : List String) : List GroupAnalysisRow :=
  analyzeGroups 1 (groupEpcs epcs)

/-! ## LoRaWAN calculator (`Testing.py`, `EPCLoRaWANCalculator`)

Python ints are unbounded, so `Nat` is exact; the float arithmetic of the
airtime formulas is modelled with exact rationals `ℚ`.  Errors raised by
the Python code (`ValueError`, `ZeroDivisionError`) are modelled with
`Except CalcError`.  Within the supported radio configurations
(`sf ∈ [7,12]`, `bw ∈ {125,250,500}`, `cr ∈ [1,4]`) every divisor in the
airtime formulas is nonzero, so field division on `ℚ` is faithful there. -/

deriving instance DecidableEq for Except

/-- Errors raised by `EPCLoRaWANCalculator` methods. -/
inductive CalcError where
  /-- `ValueError("Trop d'EPCs pour un seul packet...")` in
  `create_lorawan_payload`. -/
  | capacityExceeded
  /-- `ValueError` from `bytes.fromhex` on a non-hex or odd-length string. -/
  | invalidHex
  /-- `ValueError("Payload trop court")` in `decode_payload`. -/
  | malformed
  /-- `ZeroDivisionError` in `calculate_transmission_plan`. -/
  | divisionByZero
deriving DecidableEq, Repr

/-- `self.epc_size_bytes = 12` (Testing.py line 25). -/
def epc_size_bytes : Nat := 12

/-- `self.header_size = 4` (Testing.py line 26). -/
def header_size : Nat := 4

/-- `EPCLoRaWANCalculator._calculate_max_payload_size` (Testing.py
lines 42-46): `sf_limits = {7: 230, 8: 230, 9: 123, 10: 59, 11: 59,
12: 51}`, default 51. -/
def _calculate_max_payload_size (sf : Nat) : Nat :=
  if sf = 7 then 230
  else if sf = 8 then 230
  else if sf = 9 then 123
  else if sf = 10 then 59
  else if sf = 11 then 59
  else if sf = 12 then 51
  else 51

/-- The immutable configuration of an `EPCLoRaWANCalculator` instance
(Testing.py `__init__`, lines 12-34). -/
structure EPCLoRaWANCalculator where
  sf : Nat
  bw : Nat
  cr : Nat
  max_payload_size : Nat
deriving DecidableEq, Repr

/-- `EPCLoRaWANCalculator(sf, bw, cr)` with `payload_size=None`:
`max_payload_size` is derived from the SF table. -/
def mkCalculator (sf bw cr : Nat) : EPCLoRaWANCalculator :=
  { sf := sf, bw := bw, cr := cr,
    max_payload_size := _calculate_max_payload_size sf }

/-- `self.max_epcs_per_packet = (self.max_payload_size - self.header_size)
// self.epc_size_bytes` (Testing.py line 34).  Every value of the SF table
is ≥ 51 > 4, so the Python subtraction is nonnegative and `Nat`
subtraction/division is exact. -/
def max_epcs_per_packet (c : EPCLoRaWANCalculator) : Nat :=
  (c.max_payload_size - header_size) / epc_size_bytes

/-- Result of `calculate_airtime_parameters` (Testing.py lines 64-95). -/
structure AirtimeParams where
  T_sym_ms : ℚ
  T_pream_ms : ℚ
  N_payload : ℚ
  T_payload_ms : ℚ
  T_frame_ms : ℚ
  EPC_frame : Int
deriving DecidableEq, Repr

/-- `EPCLoRaWANCalculator.calculate_airtime_parameters` (Testing.py
lines 64-95), Python float arithmetic modelled exactly over `ℚ`:
`T_sym = 2**sf / (bw * 1000)`, `T_pream = (8 + 4.25) * T_sym`,
`PL_H = 1 if sf >= 11 else 0`,
`N_payload = 8 + max((8*p - 4*sf + 28 + 16 - 20*PL_H) / (4*(sf - 2)), 0)
* (cr + 4)`, `T_payload = N_payload * T_sym`, `T_frame = T_pream +
T_payload`; the `_ms` fields are the seconds values times 1000, and
`EPC_frame = math.floor((max_payload_size - header_size) /
epc_size_bytes)` on float division. -/
def calculate_airtime_parameters (c : EPCLoRaWANCalculator)
    (payload_bytes : Nat) : AirtimeParams :=
  let T_sym : ℚ := (2 ^ c.sf : ℚ) / ((c.bw : ℚ) * 1000)
  let T_pream : ℚ := (8 + 4.25) * T_sym
  let PL_H : ℚ := if 11 ≤ c.sf then 1 else 0
  let N_payload : ℚ :=
    8 + max ((8 * (payload_bytes : ℚ) - 4 * (c.sf : ℚ) + 28 + 16 - 20 * PL_H)
      / (4 * ((c.sf : ℚ) - 2))) 0 * ((c.cr : ℚ) + 4)
  let T_payload : ℚ := N_payload * T_sym
  let T_frame : ℚ := T_pream + T_payload
  let EPC_frame : Int := ⌊((c.max_payload_size : ℚ) - (header_size : ℚ)) / (epc_size_bytes : ℚ)⌋
  { T_sym_ms := T_sym * 1000
    T_pream_ms := T_pream * 1000
    N_payload := N_payload
    T_payload_ms := T_payload * 1000
    T_frame_ms := T_frame * 1000
    EPC_frame := EPC_frame }

/-- Result of `calculate_transmission_plan` (Testing.py lines 97-134). -/
structure TransmissionPlan where
  total_epcs : Nat
  frames_needed : Int
  epcs_per_frame : Nat
  frame_duration_ms : ℚ
  batch_duration_ms : ℚ
  batch_duration_s : ℚ
  max_batches_per_day : Int
  max_epcs_per_day : Int
  parameters : AirtimeParams
deriving DecidableEq, Repr

/-- `EPCLoRaWANCalculator.calculate_transmission_plan` (Testing.py
lines 97-134).  `math.ceil(total_epcs / max_epcs_per_packet)` divides by
zero when `max_epcs_per_packet == 0`, and
`math.floor(T_max_per_day / T_batch_current)` divides by zero when the
batch duration is 0 (e.g. `total_epcs == 0`); both `ZeroDivisionError`s
are modelled as `Except.error .divisionByZero`.  The dead reference
computation for 700 EPCs (lines 111-113) introduces no further failure
once `max_epcs_per_packet ≠ 0` and does not affect the result, so it is
not carried in the record. -/
def calculate_transmission_plan (c : EPCLoRaWANCalculator)
    (total_epcs : Nat) : Except CalcError TransmissionPlan :=
  let m : Nat := max_epcs_per_packet c
  if m = 0 then .error .divisionByZero
  else
    let N_frames : Int := ⌈(total_epcs : ℚ) / (m : ℚ)⌉
    let params_current := calculate_airtime_parameters c c.max_payload_size
    let T_frame_current : ℚ := params_current.T_frame_ms
    let T_batch_current : ℚ := (N_frames : ℚ) * T_frame_current
    let T_max_per_day : ℚ := 864000
    if T_batch_current = 0 then .error .divisionByZero
    else
      let lots_per_day : Int := ⌊T_max_per_day / T_batch_current⌋
      .ok
        { total_epcs := total_epcs
          frames_needed := N_frames
          epcs_per_frame := m
          frame_duration_ms := T_frame_current
          batch_duration_ms := T_batch_current
          batch_duration_s := T_batch_current / 1000
          max_batches_per_day := lots_per_day
          max_epcs_per_day := lots_per_day * (total_epcs : Int)
          parameters := params_current }

/-! ## Packet codec (`Testing.py`, header + hex bodies) -/

/-- The value of one hex character, as accepted by `bytes.fromhex`
(case-insensitive), `none` on a non-hex character. -/
def hexVal : Char → Option Nat
  | '0' => .some 0 | '1' => .some 1 | '2' => .some 2 | '3' => .some 3
  | '4' => .some 4 | '5' => .some 5 | '6' => .some 6 | '7' => .some 7
  | '8' => .some 8 | '9' => .some 9
  | 'A' => .some 10 | 'B' => .some 11 | 'C' => .some 12
  | 'D' => .some 13 | 'E' => .some 14 | 'F' => .some 15
  | 'a' => .some 10 | 'b' => .some 11 | 'c' => .some 12
  | 'd' => .some 13 | 'e' => .some 14 | 'f' => .some 15
  | _ => .none

/-- `bytes.fromhex` (Testing.py line 147): consume the characters two at
a time, each pair giving one byte; a non-hex character or an odd length
raises `ValueError`.  (The whitespace tolerance of `bytes.fromhex` is
not modelled: every call site passes validated hex strings.) -/
def fromHexPairs : List Char → Except CalcError (List Nat)
  | [] => .ok []
  | [_] => .error .invalidHex
  | c1 :: c2 :: rest =>
    match hexVal c1, hexVal c2, fromHexPairs rest with
    | some v1, some v2, .ok bs => .ok ((16 * v1 + v2) :: bs)
    | _, _, _ => .error .invalidHex

/-- The uppercase hex digit of a value `< 16`. -/
def hexDigitUpper (n : Nat) : Char :=
  (['0', '1', '2', '3', '4', '5', '6', '7', '8', '9',
    'A', 'B', 'C', 'D', 'E', 'F']).getD n '0'

/-- One byte rendered as two uppercase hex characters: models
`bytes.hex().upper()` (Testing.py line 171) applied bytewise. -/
def byteToHexUpper (b : Nat) : List Char :=
  [hexDigitUpper (b / 16), hexDigitUpper (b % 16)]

/-- A byte string rendered as uppercase hex: `epc_bytes.hex().upper()`
(Testing.py line 171). -/
def bytesToHexUpper (bs : List Nat) : List Char :=
  (bs.map byteToHexUpper).flatten

/-- `EPCLoRaWANCalculator.create_packet_header` (Testing.py lines
136-139): `struct.pack('>BBH', packet_id & 0xFF, epc_count & 0xFF,
timestamp)` where `timestamp = int(datetime.now().timestamp()) & 0xFFFF`.
The wall-clock value is passed in as the parameter `ts`. -/
def create_packet_header (packet_id epc_count ts : Nat) : List Nat :=
  [packet_id % 256, epc_count % 256, (ts % 65536) / 256, (ts % 65536) % 256]

/-- `EPCLoRaWANCalculator.create_lorawan_payload` (Testing.py lines
141-149): reject more EPCs than `max_epcs_per_packet` (before any hex
decoding), then header plus the concatenated 12-byte EPC bodies. -/
def create_lorawan_payload (c : EPCLoRaWANCalculator) (ts : Nat)
    (epcs : List String) (packet_id : Nat) : Except CalcError (List Nat) :=
  if max_epcs_per_packet c < epcs.length then .error .capacityExceeded
  else
    match epcs.mapM (fun e => fromHexPairs e.data) with
    | .error e => .error e
    | .ok bodies => .ok (create_packet_header packet_id epcs.length ts ++ bodies.flatten)

/-- Result of `decode_payload` (Testing.py lines 151-179). -/
structure Decoded where
  packet_id : Nat
  epc_count : Nat
  timestamp : Nat
  epcs : List String
deriving DecidableEq, Repr

/-- The `for i in range(epc_count)` loop of `decode_payload` (Testing.py
lines 163-172): slice consecutive 12-byte chunks starting at `i *
epc_size_bytes`, breaking as soon as a chunk would run past the end. -/
def extract_go (epc_data : List Nat) : Nat → Nat → List String
  | 0, _ => []
  | k + 1, i =>
    if epc_data.length < i * epc_size_bytes + epc_size_bytes then []
    else
      String.mk (bytesToHexUpper ((epc_data.drop (i * epc_size_bytes)).take epc_size_bytes)) ::
        extract_go epc_data k (i + 1)

/-- `EPCLoRaWANCalculator.decode_payload` (Testing.py lines 151-179):
fail on fewer than `header_size = 4` bytes, unpack the big-endian
`>BBH` header, then slice `epc_count` 12-byte chunks (stopping early on
a short buffer) and render each as uppercase hex. -/
def decode_payload (payload : List Nat) : Except CalcError Decoded :=
  match payload with
  | b0 :: b1 :: b2 :: b3 :: rest =>
    .ok
      { packet_id := b0
        epc_count := b1
        timestamp := b2 * 256 + b3
        epcs := extract_go rest b1 0 }
  | _ => .error .malformed

/-- The input-validation predicate shared by the repository (spec §6 and
EPC_OPT.py line 26): exactly 24 characters, all hex (case-insensitive). -/
def isValidEPC (e : String) : Bool :=
  e.length = 24 && e.data.all (fun c => (hexVal c).isSome)

/-- Uppercase normalization of a string, as performed by the decode path
(`.hex().upper()`). -/
def upperEPC (e : String) : String :=
  String.mk (e.data.map Char.toUpper)

/-! ## Lemmas about the grouping engine -/

theorem collectMatches_eq_filter (b : String) :
    ∀ l : List String,
      collectMatches b l =
        (l.filter (fun c => decide (min_prefix_length ≤ commonLen b c)),
         l.filter (fun c => !decide (min_prefix_length ≤ commonLen b c))) := by
  intro l
  induction l with
  | nil => rfl
  | cons c rest ih =>
    simp only [collectMatches, ih, List.filter_cons]
    by_cases h : min_prefix_length ≤ commonLen b c <;> simp [h]

theorem collectMatches_append_perm (b : String) (l : List String) :
    List.Perm ((collectMatches b l).1 ++ (collectMatches b l).2) l := by
  rw [collectMatches_eq_filter]
  exact List.filter_append_perm _ l

theorem groupEpcs_flatten_perm_aux :
    ∀ (n : Nat) (l : List String), l.length ≤ n →
      List.Perm (groupEpcs l).flatten l := by
  intro n
  induction n with
  | zero =>
    intro l hl
    rw [List.length_eq_zero.mp (Nat.le_zero.mp hl)]
    rfl
  | succ n ih =>
    intro l hl
    rcases l with _ | ⟨b, r⟩
    · rfl
    · rw [groupEpcs_cons, List.flatten_cons]
      have h2 : (collectMatches b r).2.length ≤ n :=
        le_trans (collectMatches_snd_length_le b r) (by simpa using hl)
      exact List.Perm.cons b
        ((List.Perm.append_left _ (ih _ h2)).trans (collectMatches_append_perm b r))

theorem groupEpcs_flatten_perm (l : List String) :
    List.Perm (groupEpcs l).flatten l :=
  groupEpcs_flatten_perm_aux l.length l (Nat.le_refl _)

theorem mem_of_mem_groupEpcs {l : List String} {g : List String} {s : String}
    (hg : g ∈ groupEpcs l) (hs : s ∈ g) : s ∈ l :=
  (groupEpcs_flatten_perm l).mem_iff.mp (List.mem_flatten.mpr ⟨g, hg, hs⟩)

theorem analyzeGroups_getElem? :
    ∀ (gs : List (List String)) (k i : Nat),
      (analyzeGroups k gs)[i]? = (gs[i]?).map (fun g => analyzeGroup (k + i) g) := by
  intro gs
  induction gs with
  | nil => intro k i; simp [analyzeGroups]
  | cons g rest ih =>
    intro k i
    rcases i with _ | j
    · simp [analyzeGroups]
    · simp only [analyzeGroups, List.getElem?_cons_succ, ih (k + 1) j]
      have : k + 1 + j = k + (j + 1) := by omega
      rw [this]

theorem analyzeGroup_Suffix_Count (gid : Nat) (g : List String) :
    (analyzeGroup gid g).Suffix_Count = g.length := by
  by_cases h : g.length = 1 <;> simp [analyzeGroup, h]

/-! ## Spec-side description of the grouping pass (for the refinement
claim): the spec's "positional equality count" and its greedy pass,
written from the specification's words rather than from the code. -/

/-- Modelled from the spec: "compute the count of character positions
`i` where `base[i] == candidate[i]` for `i` in `0..len(base)` — NOT a
true longest-common-*prefix* length but a positional equality count
over the full string". -/
def positionalEqCount (base cand : String) : Nat :=
  (List.range base.length).countP (fun i => base.data[i]? == cand.data[i]?)

/-- Modelled from the spec: "remove the first remaining EPC as the
group's base; scan the rest of the pool in order ... If this count is ≥
`min_prefix_length`, remove the candidate from the pool and append it to
the current group; otherwise advance.  Repeat until the pool is empty.
Groups are emitted in the order their base was pulled."  One round keeps
exactly the candidates below the threshold, in order, as the next pool. -/
def groupEpcsSpec : List String → List (List String)
  | [] => []
  | base :: rest =>
    (base :: rest.filter (fun c => decide (6 ≤ positionalEqCount base c))) ::
      groupEpcsSpec (rest.filter (fun c => !decide (6 ≤ positionalEqCount base c)))
termination_by l => l.length
decreasing_by
  exact Nat.lt_succ_of_le (List.length_filter_le _ _)

theorem optionBeqSomeSome (a b : Char) :
    ((some a == some b) : Bool) = (a == b) := rfl

theorem optionBeqSomeNone (a : Char) :
    ((some a == (none : Option Char)) : Bool) = false := rfl

theorem rangeCountP_eq_zipCountP :
    ∀ (a b : List Char),
      (List.range a.length).countP (fun i => a[i]? == b[i]?) =
        (a.zip b).countP (fun p => p.1 == p.2) := by
  intro a
  induction a with
  | nil => intro b; simp
  | cons x xs ih =>
    intro b
    rcases b with _ | ⟨y, ys⟩
    · simp only [List.zip_nil_right, List.countP_nil]
      rw [List.countP_eq_zero]
      intro i hi
      have hi' : i < (x :: xs).length := by simpa using List.mem_range.mp hi
      rw [List.getElem?_eq_getElem hi', List.getElem?_nil, optionBeqSomeNone]
      simp
    · simp only [List.length_cons, List.range_succ_eq_map, List.zip_cons_cons]
      rw [List.countP_cons, List.countP_cons, List.countP_map]
      have hcomp : ((fun i => (x :: xs)[i]? == (y :: ys)[i]?) ∘ Nat.succ) =
          (fun i => xs[i]? == ys[i]?) := by
        funext i
        simp [Function.comp]
      rw [hcomp, ih ys]
      simp [optionBeqSomeSome]

theorem positionalEqCount_eq_commonLen (base cand : String) :
    positionalEqCount base cand = commonLen base cand := by
  unfold positionalEqCount commonLen
  have : base.length = base.data.length := rfl
  rw [this, rangeCountP_eq_zipCountP]

theorem groupEpcs_eq_spec_aux :
    ∀ (n : Nat) (l : List String), l.length ≤ n →
      groupEpcs l = groupEpcsSpec l := by
  intro n
  induction n with
  | zero =>
    intro l hl
    rw [List.length_eq_zero.mp (Nat.le_zero.mp hl)]
    simp [groupEpcsSpec, groupEpcs, groupEpcsAux]
  | succ n ih =>
    intro l hl
    rcases l with _ | ⟨b, r⟩
    · simp [groupEpcsSpec, groupEpcs, groupEpcsAux]
    · rw [groupEpcs_cons, groupEpcsSpec, collectMatches_eq_filter]
      have hpred : ∀ c ∈ r,
          decide (6 ≤ positionalEqCount b c) =
            decide (min_prefix_length ≤ commonLen b c) := by
        intro c _
        rw [positionalEqCount_eq_commonLen]
        rfl
      have h1 : r.filter (fun c => decide (6 ≤ positionalEqCount b c)) =
          r.filter (fun c => decide (min_prefix_length ≤ commonLen b c)) :=
        List.filter_congr hpred
      have h2 : r.filter (fun c => !decide (6 ≤ positionalEqCount b c)) =
          r.filter (fun c => !decide (min_prefix_length ≤ commonLen b c)) :=
        List.filter_congr (by intro c hc; rw [hpred c hc])
      rw [h1, h2]
      have hlen : (r.filter (fun c => !decide (min_prefix_length ≤ commonLen b c))).length ≤ n :=
        le_trans (List.length_filter_le _ _) (by simpa using hl)
      rw [ih _ hlen]

/-! ## Lemmas for the per-group statistics -/

theorem foldl_min_const (a : Nat) :
    ∀ (l : List String), (∀ t ∈ l, t.length = a) →
      l.foldl (fun m t => min m t.length) a = a := by
  intro l
  induction l with
  | nil => intro _; rfl
  | cons t rest ih =>
    intro h
    simp only [List.foldl_cons]
    rw [h t (by simp), min_self]
    exact ih (fun u hu => h u (by simp [hu]))

theorem minGroupLen_of_const {g : List String} (hne : g ≠ [])
    (h24 : ∀ e ∈ g, e.length = 24) : minGroupLen g = 24 := by
  rcases g with _ | ⟨s, rest⟩
  · exact absurd rfl hne
  · simp only [minGroupLen]
    rw [h24 s (by simp)]
    exact foldl_min_const 24 rest (fun u hu => h24 u (by simp [hu]))

theorem agreeCount_le_minGroupLen (g : List String) :
    agreeCount g ≤ minGroupLen g := by
  unfold agreeCount
  calc (List.range (minGroupLen g)).countP (fun i => columnUnanimous g i)
      ≤ (List.range (minGroupLen g)).length := List.countP_le_length _
    _ = minGroupLen g := List.length_range _

theorem intFdiv_coe (a b : Nat) :
    Int.fdiv (a : Int) (b : Int) = ((a / b : Nat) : Int) :=
  (Int.ofNat_fdiv a b).symm

/-! ## Claims C1, C2, C3, C5, C8: the grouping engine -/

/-- C2 (theorem): for every input sequence, the grouping pass of
`group_and_analyze` — embedded from the code as `groupEpcs`, the greedy
loop that pulls the first remaining EPC as base and removes, in scan
order, every later EPC whose positional-equality count against the base
(over the full strings, not a contiguous common prefix) is at least
`min_prefix_length = 6` — coincides with the pass described by the
specification (`groupEpcsSpec`, built from the spec's own words with its
positional equality count), with groups emitted in the order their bases
were pulled. -/
theorem C2_greedy_positional_grouping (epcs : List String) :
    groupEpcs epcs = groupEpcsSpec epcs :=
  groupEpcs_eq_spec_aux epcs.length epcs (Nat.le_refl _)

/-- C3 (theorem): the groups formed by `group_and_analyze` are a
partition of the input: every EPC occurs in exactly one group counting
multiplicity, group sizes sum to the input length, and the reported
`Suffix_Count` column also sums to the input length. -/
theorem C3_grouping_partition (epcs : List String) :
    (∀ e : String, ((groupEpcs epcs).map (fun g => g.count e)).sum = epcs.count e) ∧
    ((groupEpcs epcs).map List.length).sum = epcs.length ∧
    ((group_and_analyze epcs).map (fun r => r.Suffix_Count)).sum = epcs.length := by
  have hperm := groupEpcs_flatten_perm epcs
  have hrows : ∀ (k : Nat) (gs : List (List String)),
      (analyzeGroups k gs).map (fun r => r.Suffix_Count) = gs.map List.length := by
    intro k gs
    induction gs generalizing k with
    | nil => rfl
    | cons g rest ih => simp [analyzeGroups, analyzeGroup_Suffix_Count, ih]
  refine ⟨fun e => ?_, ?_, ?_⟩
  · rw [← List.count_flatten, hperm.count_eq]
  · rw [← List.length_flatten, hperm.length_eq]
  · rw [group_and_analyze, hrows, ← List.length_flatten, hperm.length_eq]

/-- C8 (theorem): every singleton group reports exactly the hardcoded
row: empty prefix, `Prefix_Bytes = 0`, `Suffix_Bytes = 12`,
`Suffix_Count = 1`, `Total_Payload_Bytes = 14`, `EPCs_SF7_51B = 3`,
`EPCs_SF12_11B = 0`, compression 0. -/
theorem C8_singleton_row (epcs : List String) (i : Nat) (g : List String)
    (hg : (groupEpcs epcs)[i]? = some g) (h1 : g.length = 1) :
    (group_and_analyze epcs)[i]? =
      some { Group_ID := i + 1, PrefixStr := "", Prefix_Bytes := 0, Suffix_Bytes := 12,
             Suffix_Count := 1, Total_Payload_Bytes := 14, EPCs_SF7_51B := 3,
             EPCs_SF12_11B := 0, Compression_pct := 0 } := by
  rw [group_and_analyze, analyzeGroups_getElem?, hg]
  simp only [Option.map_some']
  rw [analyzeGroup, if_pos h1]
  rw [Nat.add_comm 1 i]

theorem C8_singleton_row_witness :
    (group_and_analyze ["AAAAAAAAAAAAAAAAAAAAAAAA", "111111111111111111111111"])[0]? =
      some { Group_ID := 1, PrefixStr := "", Prefix_Bytes := 0, Suffix_Bytes := 12,
             Suffix_Count := 1, Total_Payload_Bytes := 14, EPCs_SF7_51B := 3,
             EPCs_SF12_11B := 0, Compression_pct := 0 } :=
  C8_singleton_row ["AAAAAAAAAAAAAAAAAAAAAAAA", "111111111111111111111111"] 0
    ["AAAAAAAAAAAAAAAAAAAAAAAA"] (by decide) (by decide)

/-- C5 (theorem): for 24-hex-character inputs, every group of size ≥ 2
is reported with `Suffix_Count` equal to its size, and whenever the
reported `Prefix_Bytes` is positive the reported `Total_Payload_Bytes`
is strictly below the naive `12 * Suffix_Count` encoding. -/
theorem C5_compression_saves (epcs : List String)
    (h24 : ∀ e ∈ epcs, e.length = 24) (i : Nat) (g : List String)
    (hg : (groupEpcs epcs)[i]? = some g) (h2 : 2 ≤ g.length) :
    ∃ row, (group_and_analyze epcs)[i]? = some row ∧
      row.Suffix_Count = g.length ∧
      (0 < row.Prefix_Bytes →
        row.Total_Payload_Bytes < 12 * (row.Suffix_Count : Int)) := by
  rw [group_and_analyze, analyzeGroups_getElem?, hg]
  refine ⟨analyzeGroup (1 + i) g, rfl, analyzeGroup_Suffix_Count _ _, ?_⟩
  intro _
  have hmem : ∀ s ∈ g, s ∈ epcs := fun s hs =>
    mem_of_mem_groupEpcs (List.getElem?_mem hg) hs
  have hne : g ≠ [] := by
    intro h
    rw [h] at h2
    simp at h2
  have hmin : minGroupLen g = 24 :=
    minGroupLen_of_const hne (fun e he => h24 e (hmem e he))
  have hagree : agreeCount g ≤ 24 := hmin ▸ agreeCount_le_minGroupLen g
  have hlen1 : g.length ≠ 1 := by omega
  simp only [analyzeGroup, if_neg hlen1]
  have hgoal : ∀ pl : Nat, 6 ≤ pl → pl ≤ 24 →
      2 + Int.fdiv (pl : Int) 2 + (g.length : Int) * Int.fdiv (24 - (pl : Int)) 2 <
        12 * (g.length : Int) := by
    intro pl hpl6 hpl24
    have e1 : Int.fdiv (pl : Int) 2 = ((pl / 2 : Nat) : Int) := by
      exact_mod_cast (Int.ofNat_fdiv pl 2).symm
    have e2 : (24 : Int) - (pl : Int) = ((24 - pl : Nat) : Int) := by omega
    have e3 : Int.fdiv (24 - (pl : Int)) 2 = (((24 - pl) / 2 : Nat) : Int) := by
      rw [e2]
      exact_mod_cast (Int.ofNat_fdiv (24 - pl) 2).symm
    rw [e1, e3]
    interval_cases pl <;> omega
  refine hgoal _ ?_ ?_
  · rw [hmin]
    unfold min_prefix_length
    omega
  · rw [hmin]
    omega

theorem C5_compression_saves_witness :
    ∃ row,
      (group_and_analyze ["AAAAAA000000000000000001", "AAAAAA000000000000000002"])[0]? =
        some row ∧
      row.Suffix_Count = (["AAAAAA000000000000000001", "AAAAAA000000000000000002"] : List String).length ∧
      (0 < row.Prefix_Bytes →
        row.Total_Payload_Bytes < 12 * (row.Suffix_Count : Int)) :=
  C5_compression_saves ["AAAAAA000000000000000001", "AAAAAA000000000000000002"]
    (by decide) 0 ["AAAAAA000000000000000001", "AAAAAA000000000000000002"]
    (by decide) (by decide)

/-- C1 (counterexample): on the three EPCs `AAAAAA000000000000000001/2/3`
the single reported group does NOT have `prefix_bytes = 3`,
`suffix_bytes = 9`, `total_payload_bytes = 32`: the code bills the
column-unanimity prefix (23 of the 24 positions agree), not the
6-character shared prefix the claim assumed. -/
theorem C1_counterexample :
    ¬ ∃ r ∈ group_and_analyze
        ["AAAAAA000000000000000001", "AAAAAA000000000000000002",
         "AAAAAA000000000000000003"],
      r.Prefix_Bytes = 3 ∧ r.Suffix_Bytes = 9 ∧ r.Total_Payload_Bytes = 32 := by
  decide

/-- C1 (amended): the three EPCs `AAAAAA000000000000000001/2/3` are
placed together in a single group of 3, but its reported statistics are
`prefix_bytes = 11`, `suffix_bytes = 0` and `total_payload_bytes =
2 + 11 + 3*0 = 13`, which is (still) less than 36: the billed prefix
length is the column-unanimity count 23, not the 6 shared leading
characters. -/
theorem C1_concrete_group_stats :
    ((group_and_analyze
        ["AAAAAA000000000000000001", "AAAAAA000000000000000002",
         "AAAAAA000000000000000003"]).map
      (fun r => (r.Suffix_Count, r.Prefix_Bytes, r.Suffix_Bytes, r.Total_Payload_Bytes))
      = [(3, 11, 0, 13)]) ∧ (13 : Int) < 36 := by
  constructor
  · decide
  · decide

/-! ## Lemmas for the packet codec -/

theorem hexVal_toUpper {c : Char} {v : Nat} (h : hexVal c = some v) :
    v < 16 ∧ hexDigitUpper v = c.toUpper := by
  unfold hexVal at h
  split at h <;>
    first
      | exact Option.noConfusion h
      | (injection h with h; subst h; exact ⟨by decide, by decide⟩)

theorem byteToHexUpper_pair {v1 v2 : Nat} (_h1 : v1 < 16) (h2 : v2 < 16) :
    byteToHexUpper (16 * v1 + v2) = [hexDigitUpper v1, hexDigitUpper v2] := by
  unfold byteToHexUpper
  have e1 : (16 * v1 + v2) / 16 = v1 := by omega
  have e2 : (16 * v1 + v2) % 16 = v2 := by omega
  rw [e1, e2]

theorem fromHexPairs_ok :
    ∀ (l : List Char) (bs : List Nat), fromHexPairs l = .ok bs →
      bytesToHexUpper bs = l.map Char.toUpper ∧ 2 * bs.length = l.length := by
  intro l
  induction l using fromHexPairs.induct with
  | case1 =>
    intro bs h
    injection h with h
    subst h
    exact ⟨rfl, rfl⟩
  | case2 c =>
    intro bs h
    exact Except.noConfusion h
  | case3 c1 c2 rest v1 v2 bs' hrest hv2 hv1 ih =>
    intro bs h
    simp only [fromHexPairs, hv1, hv2, hrest] at h
    injection h with h
    subst h
    obtain ⟨hlt1, hd1⟩ := hexVal_toUpper hv1
    obtain ⟨hlt2, hd2⟩ := hexVal_toUpper hv2
    obtain ⟨ihh, ihl⟩ := ih bs' hrest
    constructor
    · simp only [bytesToHexUpper, List.map_cons, List.flatten_cons,
        byteToHexUpper_pair hlt1 hlt2] at *
      simp [hd1, hd2, ihh]
    · simp only [List.length_cons] at *
      omega
  | case4 c1 c2 rest hfail ih =>
    intro bs h
    rcases hv1 : hexVal c1 with _ | v1 <;> rcases hv2 : hexVal c2 with _ | v2 <;>
      rcases hrest : fromHexPairs rest with e | bs' <;>
      simp only [fromHexPairs, hv1, hv2, hrest] at h <;>
      first
        | exact Except.noConfusion h
        | exact (hfail v1 v2 bs' hv1 hv2 hrest).elim

theorem fromHexPairs_exists :
    ∀ (l : List Char), (∀ ch ∈ l, (hexVal ch).isSome) → l.length % 2 = 0 →
      ∃ bs, fromHexPairs l = .ok bs := by
  intro l
  induction l using fromHexPairs.induct with
  | case1 => exact fun _ _ => ⟨[], rfl⟩
  | case2 c =>
    intro _ hpar
    simp at hpar
  | case3 c1 c2 rest v1 v2 bs' hrest hv2 hv1 ih =>
    intro _ _
    refine ⟨(16 * v1 + v2) :: bs', ?_⟩
    simp only [fromHexPairs, hv1, hv2, hrest]
  | case4 c1 c2 rest hfail ih =>
    intro hall hpar
    obtain ⟨v1, hv1⟩ := Option.isSome_iff_exists.mp (hall c1 (by simp))
    obtain ⟨v2, hv2⟩ := Option.isSome_iff_exists.mp (hall c2 (by simp))
    obtain ⟨bs', hbs'⟩ := ih (fun ch hch => hall ch (by simp [hch]))
      (by simp only [List.length_cons] at hpar ⊢; omega)
    exact (hfail v1 v2 bs' hv1 hv2 hbs').elim

theorem exceptBindOk {ε α β : Type} (a : α) (f : α → Except ε β) :
    (Except.ok a >>= f : Except ε β) = f a := rfl

theorem exceptPureEq {ε α : Type} (a : α) : (pure a : Except ε α) = Except.ok a := rfl

theorem mapM_fromHex_valid :
    ∀ (epcs : List String), (∀ e ∈ epcs, isValidEPC e = true) →
      ∃ bodies : List (List Nat),
        epcs.mapM (fun e => fromHexPairs e.data) = .ok bodies ∧
        bodies.length = epcs.length ∧
        (∀ b ∈ bodies, b.length = 12) ∧
        bodies.map (fun bs => String.mk (bytesToHexUpper bs)) = epcs.map upperEPC := by
  intro epcs
  induction epcs with
  | nil => exact fun _ => ⟨[], rfl, rfl, by simp, rfl⟩
  | cons e rest ih =>
    intro hval
    have hv := hval e (by simp)
    unfold isValidEPC at hv
    simp only [Bool.and_eq_true, decide_eq_true_eq, List.all_eq_true] at hv
    obtain ⟨hlen, hhex⟩ := hv
    have hlen' : e.data.length = 24 := hlen
    obtain ⟨bs, hbs⟩ := fromHexPairs_exists e.data (fun ch hch => hhex ch hch)
      (by rw [hlen'])
    obtain ⟨hhexeq, hbslen⟩ := fromHexPairs_ok e.data bs hbs
    obtain ⟨bodies', hmap', hlen'', h12', hup'⟩ := ih (fun u hu => hval u (by simp [hu]))
    refine ⟨bs :: bodies', ?_, ?_, ?_, ?_⟩
    · rw [List.mapM_cons, hbs, exceptBindOk, hmap', exceptBindOk, exceptPureEq]
    · simp [hlen'']
    · intro b hb
      rw [List.mem_cons] at hb
      rcases hb with rfl | hb
      · omega
      · exact h12' _ hb
    · simp only [List.map_cons, hup']
      congr 1
      unfold upperEPC
      rw [hhexeq]

theorem flatten_length_const :
    ∀ (blocks : List (List Nat)), (∀ b ∈ blocks, b.length = 12) →
      blocks.flatten.length = 12 * blocks.length := by
  intro blocks
  induction blocks with
  | nil => intro _; rfl
  | cons b rest ih =>
    intro h
    simp only [List.flatten_cons, List.length_append, List.length_cons,
      h b (by simp), ih (fun u hu => h u (by simp [hu]))]
    omega

theorem flatten_drop_const :
    ∀ (i : Nat) (blocks : List (List Nat)), (∀ b ∈ blocks, b.length = 12) →
      blocks.flatten.drop (i * 12) = (blocks.drop i).flatten := by
  intro i
  induction i with
  | zero => intro blocks _; simp
  | succ j ih =>
    intro blocks h
    rcases blocks with _ | ⟨b, rest⟩
    · simp
    · have harith : (j + 1) * 12 = 12 + j * 12 := by omega
      rw [harith, ← List.drop_drop, List.flatten_cons,
        List.drop_left' (h b (by simp)),
        ih rest (fun u hu => h u (by simp [hu]))]
      rfl

theorem extract_go_spec :
    ∀ (k i : Nat) (blocks : List (List Nat)), (∀ b ∈ blocks, b.length = 12) →
      i + k ≤ blocks.length →
      extract_go blocks.flatten k i =
        ((blocks.drop i).take k).map (fun bs => String.mk (bytesToHexUpper bs)) := by
  intro k
  induction k with
  | zero => intro i blocks _ _; simp [extract_go]
  | succ n ih =>
    intro i blocks h12 hik
    have hflen : blocks.flatten.length = 12 * blocks.length :=
      flatten_length_const blocks h12
    have hguard : ¬ blocks.flatten.length < i * epc_size_bytes + epc_size_bytes := by
      unfold epc_size_bytes
      omega
    rcases hd : blocks.drop i with _ | ⟨b, rest⟩
    · exfalso
      have hlendrop := congrArg List.length hd
      simp only [List.length_drop, List.length_nil] at hlendrop
      omega
    · have hb : b ∈ blocks := List.drop_subset _ _ (hd.symm ▸ List.mem_cons_self b rest)
      have hrest : blocks.drop (i + 1) = rest := by
        rw [← List.tail_drop, hd]
        rfl
      simp only [extract_go, if_neg hguard]
      have hchunk : (blocks.flatten.drop (i * epc_size_bytes)).take epc_size_bytes = b := by
        unfold epc_size_bytes
        rw [flatten_drop_const i blocks h12, hd, List.flatten_cons,
          List.take_left' (h12 b hb)]
      rw [hchunk, ih (i + 1) blocks h12 (by omega), hrest]
      simp

/-- Shared round-trip lemma: encoding any batch of valid EPCs that fits
the packet (and has at most 255 members, so that the one-byte count is
exact) and decoding it recovers packet id mod 256, the exact count, the
timestamp mod 2^16 and the uppercase-normalized EPCs in order. -/
theorem create_decode_roundtrip (c : EPCLoRaWANCalculator) (ts pid : Nat)
    (epcs : List String) (hval : ∀ e ∈ epcs, isValidEPC e = true)
    (hcap : epcs.length ≤ max_epcs_per_packet c) (hcount : epcs.length ≤ 255) :
    ∃ payload, create_lorawan_payload c ts epcs pid = .ok payload ∧
      payload.length = 4 + 12 * epcs.length ∧
      decode_payload payload = .ok
        { packet_id := pid % 256, epc_count := epcs.length,
          timestamp := ts % 65536, epcs := epcs.map upperEPC } := by
  obtain ⟨bodies, hmapM, hblen, hb12, hbmap⟩ := mapM_fromHex_valid epcs hval
  refine ⟨create_packet_header pid epcs.length ts ++ bodies.flatten, ?_, ?_, ?_⟩
  · unfold create_lorawan_payload
    rw [if_neg (by omega), hmapM]
  · simp only [List.length_append, create_packet_header, List.length_cons,
      List.length_nil, flatten_length_const bodies hb12, hblen]
  · have hcnt : epcs.length % 256 = epcs.length := Nat.mod_eq_of_lt (by omega)
    simp only [create_packet_header, List.cons_append, List.nil_append]
    simp only [decode_payload, hcnt]
    have hts : (ts % 65536) / 256 * 256 + (ts % 65536) % 256 = ts % 65536 := by omega
    rw [hts]
    have hepcs : extract_go bodies.flatten epcs.length 0 = epcs.map upperEPC := by
      rw [← hblen, extract_go_spec bodies.length 0 bodies hb12 (by omega)]
      simp [hbmap]
    rw [hepcs]

/-! ## Claims C4 and C9: the packet codec -/

theorem three_le_max_epcs (sf bw cr : Nat) :
    3 ≤ max_epcs_per_packet (mkCalculator sf bw cr) := by
  unfold max_epcs_per_packet mkCalculator _calculate_max_payload_size header_size epc_size_bytes
  split_ifs <;> norm_num

/-- C4 (counterexample): the claim "decode(encode([epc], 0)) recovers
epc unchanged" fails for a valid lowercase EPC: the decoder renders hex
uppercase, so the lowercase spelling is not recovered verbatim. -/
theorem C4_counterexample :
    isValidEPC "aaaaaa000000000000000001" = true ∧
    ((create_lorawan_payload (mkCalculator 12 125 1) 0
        ["aaaaaa000000000000000001"] 0).toOption.bind
      (fun p => (decode_payload p).toOption.map (fun d => d.epcs))) =
      some ["AAAAAA000000000000000001"] ∧
    (["AAAAAA000000000000000001"] : List String) ≠ ["aaaaaa000000000000000001"] := by
  refine ⟨by decide, by decide, by decide⟩

/-- C4 (amended theorem): for every valid EPC (24 hex characters,
case-insensitive), `decode_payload (create_lorawan_payload [epc] 0)`
recovers the uppercase normalization of `epc` (hence `epc` unchanged
whenever it is already uppercase), and encoding 3 valid EPCs with
packet id 5 then decoding yields count 3, packet id 5, and the 3
uppercase-normalized EPC strings in their original order. -/
theorem C4_roundtrip_uppercase (sf bw cr ts : Nat) :
    (∀ e : String, isValidEPC e = true →
      ∃ payload,
        create_lorawan_payload (mkCalculator sf bw cr) ts [e] 0 = .ok payload ∧
        decode_payload payload = .ok
          { packet_id := 0, epc_count := 1, timestamp := ts % 65536,
            epcs := [upperEPC e] }) ∧
    (∀ e : String, e.data.all (fun ch => ch.toUpper == ch) = true → upperEPC e = e) ∧
    (∀ e1 e2 e3 : String, isValidEPC e1 = true → isValidEPC e2 = true →
      isValidEPC e3 = true →
      ∃ payload,
        create_lorawan_payload (mkCalculator sf bw cr) ts [e1, e2, e3] 5 = .ok payload ∧
        decode_payload payload = .ok
          { packet_id := 5, epc_count := 3, timestamp := ts % 65536,
            epcs := [upperEPC e1, upperEPC e2, upperEPC e3] }) := by
  have hmax := three_le_max_epcs sf bw cr
  refine ⟨?_, ?_, ?_⟩
  · intro e he
    obtain ⟨payload, h1, _, h3⟩ :=
      create_decode_roundtrip (mkCalculator sf bw cr) ts 0 [e]
        (by simpa using he) (by simpa using by omega) (by simp)
    exact ⟨payload, h1, by simpa using h3⟩
  · intro e he
    rw [List.all_eq_true] at he
    unfold upperEPC
    have : e.data.map Char.toUpper = e.data.map id :=
      List.map_congr_left (fun a ha => by simpa using he a ha)
    rw [this, List.map_id]
  · intro e1 e2 e3 h1 h2 h3
    obtain ⟨payload, hp1, _, hp3⟩ :=
      create_decode_roundtrip (mkCalculator sf bw cr) ts 5 [e1, e2, e3]
        (by
          intro e he
          rcases List.mem_cons.mp he with rfl | he
          · exact h1
          rcases List.mem_cons.mp he with rfl | he
          · exact h2
          rcases List.mem_cons.mp he with rfl | he
          · exact h3
          simp at he)
        (by simpa using by omega) (by simp)
    exact ⟨payload, hp1, by simpa using hp3⟩

theorem C4_roundtrip_uppercase_witness :
    (∃ payload,
        create_lorawan_payload (mkCalculator 12 125 1) 0
          ["AbCdEf012345678901234567"] 0 = .ok payload ∧
        decode_payload payload = .ok
          { packet_id := 0, epc_count := 1, timestamp := 0 % 65536,
            epcs := [upperEPC "AbCdEf012345678901234567"] }) ∧
    (∃ payload,
        create_lorawan_payload (mkCalculator 12 125 1) 0
          ["AAAAAA000000000000000001", "AAAAAA000000000000000002",
           "BBBBBB000000000000000003"] 5 = .ok payload ∧
        decode_payload payload = .ok
          { packet_id := 5, epc_count := 3, timestamp := 0 % 65536,
            epcs := [upperEPC "AAAAAA000000000000000001",
                     upperEPC "AAAAAA000000000000000002",
                     upperEPC "BBBBBB000000000000000003"] }) :=
  ⟨(C4_roundtrip_uppercase 12 125 1 0).1 "AbCdEf012345678901234567" (by decide),
   (C4_roundtrip_uppercase 12 125 1 0).2.2 "AAAAAA000000000000000001"
     "AAAAAA000000000000000002" "BBBBBB000000000000000003"
     (by decide) (by decide) (by decide)⟩

/-- C9 (theorem): `create_lorawan_payload` fails with the capacity error
exactly as claimed when more EPCs are supplied than
`max_epcs_per_packet`; with at most `max_epcs_per_packet` valid EPCs it
succeeds and the byte sequence has length `4 + 12 * len(epcs)`. -/
theorem C9_capacity_and_length (c : EPCLoRaWANCalculator) (ts : Nat)
    (epcs : List String) (pid : Nat) :
    (max_epcs_per_packet c < epcs.length →
      create_lorawan_payload c ts epcs pid = .error .capacityExceeded) ∧
    (epcs.length ≤ max_epcs_per_packet c → (∀ e ∈ epcs, isValidEPC e = true) →
      ∃ payload, create_lorawan_payload c ts epcs pid = .ok payload ∧
        payload.length = 4 + 12 * epcs.length) := by
  constructor
  · intro h
    unfold create_lorawan_payload
    rw [if_pos h]
  · intro hcap hval
    obtain ⟨bodies, hmapM, hblen, hb12, _⟩ := mapM_fromHex_valid epcs hval
    refine ⟨create_packet_header pid epcs.length ts ++ bodies.flatten, ?_, ?_⟩
    · unfold create_lorawan_payload
      rw [if_neg (by omega), hmapM]
    · simp only [List.length_append, create_packet_header, List.length_cons,
        List.length_nil, flatten_length_const bodies hb12, hblen]

theorem C9_capacity_and_length_witness :
    (create_lorawan_payload (mkCalculator 12 125 1) 0
        ["AAAAAAAAAAAAAAAAAAAAAAAA", "BBBBBBBBBBBBBBBBBBBBBBBB",
         "CCCCCCCCCCCCCCCCCCCCCCCC", "DDDDDDDDDDDDDDDDDDDDDDDD"] 0 =
      .error .capacityExceeded) ∧
    (∃ payload,
        create_lorawan_payload (mkCalculator 12 125 1) 0
          ["AAAAAAAAAAAAAAAAAAAAAAAA"] 0 = .ok payload ∧
        payload.length =
          4 + 12 * (["AAAAAAAAAAAAAAAAAAAAAAAA"] : List String).length) :=
  ⟨(C9_capacity_and_length (mkCalculator 12 125 1) 0
      ["AAAAAAAAAAAAAAAAAAAAAAAA", "BBBBBBBBBBBBBBBBBBBBBBBB",
       "CCCCCCCCCCCCCCCCCCCCCCCC", "DDDDDDDDDDDDDDDDDDDDDDDD"] 0).1 (by decide),
   (C9_capacity_and_length (mkCalculator 12 125 1) 0
      ["AAAAAAAAAAAAAAAAAAAAAAAA"] 0).2 (by decide) (by decide)⟩

/-! ## Claims C6, C7, C10: airtime and the transmission planner -/

theorem T_frame_ms_pos (c : EPCLoRaWANCalculator) (p : Nat) (hbw : 0 < c.bw) :
    0 < (calculate_airtime_parameters c p).T_frame_ms := by
  simp only [calculate_airtime_parameters]
  have hb : (0 : ℚ) < (c.bw : ℚ) := by exact_mod_cast hbw
  have hsym : (0 : ℚ) < (2 ^ c.sf : ℚ) / ((c.bw : ℚ) * 1000) :=
    div_pos (by positivity) (by positivity)
  have hmax : (0 : ℚ) ≤
      max ((8 * (p : ℚ) - 4 * (c.sf : ℚ) + 28 + 16 -
        20 * (if 11 ≤ c.sf then (1 : ℚ) else 0)) / (4 * ((c.sf : ℚ) - 2))) 0 :=
    le_max_right _ 0
  have hN : (0 : ℚ) ≤
      max ((8 * (p : ℚ) - 4 * (c.sf : ℚ) + 28 + 16 -
        20 * (if 11 ≤ c.sf then (1 : ℚ) else 0)) / (4 * ((c.sf : ℚ) - 2))) 0 *
        ((c.cr : ℚ) + 4) :=
    mul_nonneg hmax (by positivity)
  nlinarith [hsym, hN]

theorem plan_ok_spec (sf bw cr total : Nat) (hbw : 0 < bw) (ht : 1 ≤ total) :
    ∃ p, calculate_transmission_plan (mkCalculator sf bw cr) total = .ok p ∧
      p.frames_needed =
        ⌈(total : ℚ) / (max_epcs_per_packet (mkCalculator sf bw cr) : ℚ)⌉ ∧
      p.epcs_per_frame = max_epcs_per_packet (mkCalculator sf bw cr) ∧
      p.frame_duration_ms = (calculate_airtime_parameters (mkCalculator sf bw cr)
        (mkCalculator sf bw cr).max_payload_size).T_frame_ms ∧
      p.batch_duration_ms = (p.frames_needed : ℚ) * p.frame_duration_ms ∧
      p.max_batches_per_day = ⌊(864000 : ℚ) / p.batch_duration_ms⌋ ∧
      p.max_epcs_per_day = p.max_batches_per_day * (total : Int) := by
  have hm3 := three_le_max_epcs sf bw cr
  have hm : ¬ (max_epcs_per_packet (mkCalculator sf bw cr) = 0) := by omega
  have hframes : (0 : Int) <
      ⌈(total : ℚ) / (max_epcs_per_packet (mkCalculator sf bw cr) : ℚ)⌉ := by
    rw [Int.ceil_pos]
    apply div_pos
    · have h : 0 < total := ht
      exact_mod_cast h
    · have h : 0 < max_epcs_per_packet (mkCalculator sf bw cr) := by omega
      exact_mod_cast h
  have hTf : 0 < (calculate_airtime_parameters (mkCalculator sf bw cr)
      (mkCalculator sf bw cr).max_payload_size).T_frame_ms :=
    T_frame_ms_pos (mkCalculator sf bw cr) _ (by simpa [mkCalculator] using hbw)
  have hbatch : ¬ ((⌈(total : ℚ) /
      (max_epcs_per_packet (mkCalculator sf bw cr) : ℚ)⌉ : ℚ) *
      (calculate_airtime_parameters (mkCalculator sf bw cr)
        (mkCalculator sf bw cr).max_payload_size).T_frame_ms = 0) := by
    apply ne_of_gt
    apply mul_pos _ hTf
    exact_mod_cast hframes
  simp only [calculate_transmission_plan]
  rw [if_neg hm, if_neg hbatch]
  exact ⟨_, rfl, rfl, rfl, rfl, rfl, rfl, rfl⟩

/-- C6 (theorem): for every radio configuration and `totalEpcs ≥ 1`, the
transmission plan has `frames_needed = ceil(totalEpcs /
max_epcs_per_packet)`, per-frame airtime computed from the configured
`max_payload_size` regardless of actual occupancy, `batch_duration_ms =
frames_needed * frame_duration_ms`, `max_batches_per_day =
floor(864000 / batch_duration_ms)` and `max_epcs_per_day =
max_batches_per_day * totalEpcs` (the batch size, not
`max_epcs_per_packet * frames_needed`). -/
theorem C6_transmission_plan (sf bw cr total : Nat)
    (hsf1 : 7 ≤ sf) (hsf2 : sf ≤ 12) (hbw : bw = 125 ∨ bw = 250 ∨ bw = 500)
    (hcr1 : 1 ≤ cr) (hcr2 : cr ≤ 4) (ht : 1 ≤ total) :
    ∃ p, calculate_transmission_plan (mkCalculator sf bw cr) total = .ok p ∧
      p.frames_needed =
        ⌈(total : ℚ) / (max_epcs_per_packet (mkCalculator sf bw cr) : ℚ)⌉ ∧
      p.epcs_per_frame = max_epcs_per_packet (mkCalculator sf bw cr) ∧
      p.frame_duration_ms = (calculate_airtime_parameters (mkCalculator sf bw cr)
        (mkCalculator sf bw cr).max_payload_size).T_frame_ms ∧
      p.batch_duration_ms = (p.frames_needed : ℚ) * p.frame_duration_ms ∧
      p.max_batches_per_day = ⌊(864000 : ℚ) / p.batch_duration_ms⌋ ∧
      p.max_epcs_per_day = p.max_batches_per_day * (total : Int) :=
  plan_ok_spec sf bw cr total (by rcases hbw with h | h | h <;> omega) ht

theorem C6_transmission_plan_witness :
    ∃ p, calculate_transmission_plan (mkCalculator 12 125 1) 7 = .ok p ∧
      p.frames_needed =
        ⌈((7 : Nat) : ℚ) / (max_epcs_per_packet (mkCalculator 12 125 1) : ℚ)⌉ ∧
      p.epcs_per_frame = max_epcs_per_packet (mkCalculator 12 125 1) ∧
      p.frame_duration_ms = (calculate_airtime_parameters (mkCalculator 12 125 1)
        (mkCalculator 12 125 1).max_payload_size).T_frame_ms ∧
      p.batch_duration_ms = (p.frames_needed : ℚ) * p.frame_duration_ms ∧
      p.max_batches_per_day = ⌊(864000 : ℚ) / p.batch_duration_ms⌋ ∧
      p.max_epcs_per_day = p.max_batches_per_day * ((7 : Nat) : Int) :=
  C6_transmission_plan 12 125 1 7 (by decide) (by decide) (by decide)
    (by decide) (by decide) (by decide)

/-- C7 (theorem): for fixed `sf ∈ [7,12]`, `bw ∈ {125,250,500}` and
`cr ∈ [1,4]`, the frame duration returned by
`calculate_airtime_parameters` is non-decreasing in the payload size. -/
theorem C7_airtime_monotone (sf bw cr p1 p2 : Nat)
    (hsf1 : 7 ≤ sf) (hsf2 : sf ≤ 12) (hbw : bw = 125 ∨ bw = 250 ∨ bw = 500)
    (hcr1 : 1 ≤ cr) (hcr2 : cr ≤ 4) (hp : p1 ≤ p2) :
    (calculate_airtime_parameters (mkCalculator sf bw cr) p1).T_frame_ms ≤
      (calculate_airtime_parameters (mkCalculator sf bw cr) p2).T_frame_ms := by
  simp only [calculate_airtime_parameters, mkCalculator]
  have hsym : (0 : ℚ) ≤ (2 ^ sf : ℚ) / ((bw : ℚ) * 1000) := by positivity
  have hsf7 : (7 : ℚ) ≤ (sf : ℚ) := by exact_mod_cast hsf1
  have hden : (0 : ℚ) < 4 * ((sf : ℚ) - 2) := by linarith
  have hp' : (p1 : ℚ) ≤ (p2 : ℚ) := by exact_mod_cast hp
  have hterm :
      (8 * (p1 : ℚ) - 4 * (sf : ℚ) + 28 + 16 -
          20 * (if 11 ≤ sf then (1 : ℚ) else 0)) / (4 * ((sf : ℚ) - 2)) ≤
        (8 * (p2 : ℚ) - 4 * (sf : ℚ) + 28 + 16 -
          20 * (if 11 ≤ sf then (1 : ℚ) else 0)) / (4 * ((sf : ℚ) - 2)) := by
    apply div_le_div_of_nonneg_right ?_ hden.le
    linarith
  have hmono := max_le_max hterm (le_refl (0 : ℚ))
  have hN := mul_le_mul_of_nonneg_right hmono (by positivity : (0 : ℚ) ≤ (cr : ℚ) + 4)
  have hNsym := mul_le_mul_of_nonneg_right
    (add_le_add_left hN 8) hsym
  have := add_le_add_left hNsym ((8 + 4.25) * ((2 ^ sf : ℚ) / ((bw : ℚ) * 1000)))
  exact mul_le_mul_of_nonneg_right this (by norm_num)

theorem C7_airtime_monotone_witness :
    (calculate_airtime_parameters (mkCalculator 12 125 1) 16).T_frame_ms ≤
      (calculate_airtime_parameters (mkCalculator 12 125 1) 51).T_frame_ms :=
  C7_airtime_monotone 12 125 1 16 51 (by decide) (by decide) (by decide)
    (by decide) (by decide) (by decide)

/-- C10 (theorem): with `totalEpcs = 0` the planner computes
`frames_needed = ceil(0 / max_epcs_per_packet) = 0`, hence a zero batch
duration, and fails with the (modelled) `ZeroDivisionError` at
`floor(864000 / batch_duration_ms)`; for every `totalEpcs ≥ 1` (and a
supported bandwidth) it succeeds, so the operation is total exactly
under the unstated precondition `totalEpcs ≥ 1`. -/
theorem C10_zero_epcs_division_by_zero (sf bw cr : Nat) :
    (⌈(0 : ℚ) / (max_epcs_per_packet (mkCalculator sf bw cr) : ℚ)⌉ = 0) ∧
    calculate_transmission_plan (mkCalculator sf bw cr) 0 = .error .divisionByZero ∧
    (∀ total : Nat, 1 ≤ total → (bw = 125 ∨ bw = 250 ∨ bw = 500) →
      ∃ p, calculate_transmission_plan (mkCalculator sf bw cr) total = .ok p) := by
  have hm3 := three_le_max_epcs sf bw cr
  have hm : ¬ (max_epcs_per_packet (mkCalculator sf bw cr) = 0) := by omega
  refine ⟨by simp, ?_, ?_⟩
  · simp only [calculate_transmission_plan]
    rw [if_neg hm]
    rw [if_pos (by push_cast; simp)]
  · intro total h1 hbw
    obtain ⟨p, hp, _⟩ :=
      plan_ok_spec sf bw cr total (by rcases hbw with h | h | h <;> omega) h1
    exact ⟨p, hp⟩

theorem C10_zero_epcs_division_by_zero_witness :
    calculate_transmission_plan (mkCalculator 12 125 1) 0 = .error .divisionByZero ∧
    (∃ p, calculate_transmission_plan (mkCalculator 12 125 1) 7 = .ok p) :=
  ⟨(C10_zero_epcs_division_by_zero 12 125 1).2.1,
   (C10_zero_epcs_division_by_zero 12 125 1).2.2 7 (by decide) (by decide)⟩
